import Mathlib

/-!
Verification of the proof-of-work consensus core of a Bitcoin-derived,
Equihash-mined node (pow.cpp: GetNextWorkRequired, Digishield v3, Zawy LWMA,
CheckProofOfWork, CheckEquihashSolution).

The C++ source is embedded shallowly:
* 256-bit `arith_uint256` values are `Nat` with explicit `% 2^256` where the
  C++ arithmetic wraps;
* C++ `int` / `int64_t` values are `Int`; where the 32-bit width of a C++
  `int` is observable (the LWMA solvetime accumulator `t`) the wrap-around is
  modelled explicitly with `wrap32`;
* fallible paths (failed `assert`, null-pointer dereference, the
  `uint_error` thrown by `base_uint` division by zero) return `none`;
* the chain index is a nonempty list of headers, most recent first; the
  height of the tip is `length - 1` and `pprev` is `List.tail`.
-/

/-- Network tag replacing the process-wide `Params().NetworkIDString()`
singleton read by the Digishield fork-reset branch. -/
inductive Network where
  | main
  | test
  | regtest
deriving DecidableEq

/-- The consensus-relevant subset of a chain-index entry: its compact
difficulty `nBits` and its timestamp `nTime` (a `u32`; `GetBlockTime()`
returns it widened to `int64_t`). -/
structure Header where
  nBits : Nat
  nTime : Nat
deriving DecidableEq

/-- `Consensus::Params`: the chain-parameter bundle consumed by the
retarget engine and the header validator. -/
structure Params where
  powLimit : Nat
  fPowAllowMinDifficultyBlocks : Bool
  fPowNoRetargeting : Bool
  nZawyLWMAHeight : Int
  nEquihashForkHeight : Int
  nDigishieldAveragingWindow : Int
  nDigishieldTargetSpacing : Int
  nDigishieldMaxAdjustUp : Int
  nDigishieldMaxAdjustDown : Int
  nPowTargetSpacing : Int
  nZawyLwmaAveragingWindow : Int
  nZawyLwmaAdjustedWeight : Int
  nZawyLwmaMinDenominator : Int
  bZawyLwmaSolvetimeLimitation : Bool
  network : Network

/-- Modelled from the spec:
`DigishieldAveragingWindowTimespan() = W * nDigishieldTargetSpacing`
(the accessor lives on `Consensus::Params`, outside the given sources). -/
def Params.DigishieldAveragingWindowTimespan (p : Params) : Int :=
  p.nDigishieldAveragingWindow * p.nDigishieldTargetSpacing

/-- Modelled from the spec: the lower clamp
`(W * nDigishieldTargetSpacing * (100 - up)) / 100`, C++ division truncating
toward zero. -/
def Params.DigishieldMinActualTimespan (p : Params) : Int :=
  Int.tdiv (p.DigishieldAveragingWindowTimespan * (100 - p.nDigishieldMaxAdjustUp)) 100

/-- Modelled from the spec: the upper clamp
`(W * nDigishieldTargetSpacing * (100 + down)) / 100`. -/
def Params.DigishieldMaxActualTimespan (p : Params) : Int :=
  Int.tdiv (p.DigishieldAveragingWindowTimespan * (100 + p.nDigishieldMaxAdjustDown)) 100

/-- C++ conversion of a signed value to `uint64_t` (two's-complement wrap),
as performed by the implicit `base_uint(uint64_t)` constructor. -/
def intToUInt64 (i : Int) : Nat := (i % (2 ^ 64 : Int)).toNat

/-- C++ conversion of a signed value to `uint32_t`, as performed when an
`int64_t` is passed to `base_uint::operator*=(uint32_t)`. -/
def intToUInt32 (i : Int) : Nat := (i % (2 ^ 32 : Int)).toNat

/-- Two's-complement wrap of an integer into the range of a 32-bit C++
`int`, modelling the narrowing that happens on assignment back to `int`. -/
def wrap32 (i : Int) : Int := (i + 2 ^ 31) % 2 ^ 32 - 2 ^ 31

/-- Result of `arith_uint256::SetCompact`: the decoded 256-bit target and
the `fNegative` / `fOverflow` flags. -/
structure CompactDecode where
  target : Nat
  negative : Bool
  overflow : Bool
deriving DecidableEq

/-- Modelled from the spec: the compact codec (`arith_uint256::SetCompact`,
outside the given sources).  Exponent `nSize` is the top byte, the mantissa
word is the low 23 bits (the spec's 24-bit mantissa minus its sign bit);
for `nSize <= 3` the mantissa word is shifted down before the flag checks,
and the negative / overflow conditions follow the reference codec that the
spec's P2 examples describe (`E=33` with a three-byte mantissa overflows). -/
def SetCompact (nCompact : Nat) : CompactDecode :=
  let nSize := nCompact / 2 ^ 24
  let nWord0 := nCompact % 2 ^ 23
  let nWord := if nSize ≤ 3 then nWord0 / 2 ^ (8 * (3 - nSize)) else nWord0
  { target := if nSize ≤ 3 then nWord else nWord * 2 ^ (8 * (nSize - 3)) % 2 ^ 256
    negative := decide (nWord ≠ 0) && decide (nCompact / 2 ^ 23 % 2 = 1)
    overflow := decide (nWord ≠ 0) &&
      (decide (nSize > 34) || (decide (nWord > 0xff) && decide (nSize > 33)) ||
        (decide (nWord > 0xffff) && decide (nSize > 32))) }

/-- Bit length (one plus the position of the highest set bit, 0 for 0) of a
256-bit value, as `base_uint::bits()` computes it; written with structural
recursion on a 256-step fuel so that it evaluates by kernel reduction. -/
def bitsFuel : Nat → Nat → Nat
  | _, 0 => 0
  | 0, _ + 1 => 0
  | fuel + 1, n + 1 => bitsFuel fuel ((n + 1) / 2) + 1

/-- `base_uint::bits()` for values below `2^256`. -/
def bits (x : Nat) : Nat := bitsFuel 256 x

/-- The raw mantissa word of the compact encoder, before the sign-bit
adjustment: the byte count is `(bits + 7) / 8`, and the value is aligned so
its top (up to three) bytes remain. -/
def compactMantissa (x : Nat) : Nat :=
  if (bits x + 7) / 8 ≤ 3 then x % 2 ^ 64 * 2 ^ (8 * (3 - (bits x + 7) / 8))
  else x / 2 ^ (8 * ((bits x + 7) / 8 - 3)) % 2 ^ 64

/-- Modelled from the spec: the compact encoder (`arith_uint256::GetCompact`
for a nonnegative value, outside the given sources): take the top (up to)
three bytes as mantissa; if the mantissa's high bit (bit 23) is set, shift
it down a byte and bump the exponent so the sign bit stays clear; pack as
`mantissa + exponent * 2^24`. -/
def GetCompact (x : Nat) : Nat :=
  if compactMantissa x / 2 ^ 23 % 2 = 1 then
    compactMantissa x / 2 ^ 8 + ((bits x + 7) / 8 + 1) * 2 ^ 24
  else compactMantissa x + (bits x + 7) / 8 * 2 ^ 24

/-- Insert into an ascending list, keeping it sorted. -/
def insertAsc (x : Int) : List Int → List Int
  | [] => [x]
  | y :: ys => if x ≤ y then x :: y :: ys else y :: insertAsc x ys

/-- Insertion sort into ascending order. -/
def sortAsc (l : List Int) : List Int := l.foldr insertAsc []

/-- Modelled from the spec: `CBlockIndex::GetMedianTimePast` (outside the
given sources) — the median of the timestamps of the up-to-11 most recent
blocks ending at this index, taking the lower middle of an even-length set. -/
def GetMedianTimePast (chain : List Header) : Int :=
  let sorted := sortAsc ((chain.take 11).map (fun h => (h.nTime : Int)))
  sorted.getD ((sorted.length - 1) / 2) 0

/-- Modelled from the spec: `CBlockIndex::GetAncestor(height)` (outside the
given sources) — the index entry at the requested height, `nullptr` when the
height is negative or above the current height.  The returned value is the
sub-chain whose tip sits at that height. -/
def GetAncestor (chain : List Header) (height : Int) : Option (List Header) :=
  if height < 0 ∨ (chain.length : Int) - 1 < height then none
  else some (chain.drop (chain.length - 1 - height.toNat))

/-- The testnet min-difficulty escape condition of
`DigishieldGetNextWorkRequired`: the flag is set and the candidate block
(null-guarded) is more than `6 * nDigishieldTargetSpacing` past the parent. -/
def digishieldEscape (tip : Header) (pblock : Option Header) (params : Params) : Bool :=
  params.fPowAllowMinDifficultyBlocks &&
    match pblock with
    | some b => decide ((b.nTime : Int) > (tip.nTime : Int) + params.nDigishieldTargetSpacing * 6)
    | none => false

/-- The Digishield fork-reset branch: on non-mainnet the lower edge is
`nEquihashForkHeight`, on mainnet it is the historical literal `95005`. -/
def digishieldReset (tipHeight : Nat) (params : Params) : Bool :=
  if params.network ≠ Network.main then
    decide ((tipHeight : Int) + 1 ≥ params.nEquihashForkHeight) &&
      decide ((tipHeight : Int) < params.nEquihashForkHeight + params.nDigishieldAveragingWindow)
  else
    decide ((tipHeight : Int) + 1 ≥ 95005) &&
      decide ((tipHeight : Int) < params.nEquihashForkHeight + params.nDigishieldAveragingWindow)

/-- The backward walk of `DigishieldGetNextWorkRequired`: starting at the
parent, add up to `n` decoded targets (wrapping `arith_uint256` addition)
while stepping `pindexFirst` to `pprev`; returns the accumulated `bnTot`
and the final position of `pindexFirst` (`[]` plays `nullptr`). -/
def digishieldWalk : List Header → Nat → Nat × List Header
  | rest, 0 => (0, rest)
  | [], _ + 1 => (0, [])
  | hdr :: rest, n + 1 =>
    let p := digishieldWalk rest n
    (((SetCompact hdr.nBits).target + p.1) % 2 ^ 256, p.2)

/-- The `firstMTP` anchor the Digishield engine feeds to the actual-timespan
computation: the median-time-past of the block `pindexFirst` ends on, `none`
when the walk ran off the chain. -/
def digishieldAnchor (chain : List Header) (params : Params) : Option Int :=
  match (digishieldWalk chain params.nDigishieldAveragingWindow.toNat).2 with
  | [] => none
  | f :: fs => some (GetMedianTimePast (f :: fs))

/-- `DigishieldCalculateNextWorkRequired`: dampened, clamped retarget from
the window-average target and the `firstMTP` anchor. -/
def DigishieldCalculateNextWorkRequired (chain : List Header) (bnAvg : Nat)
    (nFirstBlockTime : Int) (params : Params) : Option Nat :=
  match chain with
  | [] => none
  | tip :: rest =>
    if params.fPowNoRetargeting then some tip.nBits
    else
      let timespan := params.DigishieldAveragingWindowTimespan
      let actual0 := GetMedianTimePast (tip :: rest) - nFirstBlockTime
      let actual1 := timespan + Int.tdiv (actual0 - timespan) 4
      let actual2 :=
        if actual1 < params.DigishieldMinActualTimespan then params.DigishieldMinActualTimespan
        else actual1
      let actual3 :=
        if actual2 > params.DigishieldMaxActualTimespan then params.DigishieldMaxActualTimespan
        else actual2
      let d := intToUInt64 timespan
      if d = 0 then none
      else
        let bnNew := bnAvg / d * intToUInt32 actual3 % 2 ^ 256
        let bnNew' := if bnNew > params.powLimit then params.powLimit else bnNew
        some (GetCompact bnNew')

/-- `DigishieldGetNextWorkRequired`: min-difficulty escape, fork-reset
window, the averaging walk and the hand-off to the calculate step.  The
`assert(pindexLast != nullptr)` makes the null parent abort (`none`); the
textual `if (pindexLast == NULL) return nProofOfWorkLimit;` behind it is
unreachable. -/
def DigishieldGetNextWorkRequired (chain : List Header) (pblock : Option Header)
    (params : Params) : Option Nat :=
  match chain with
  | [] => none
  | tip :: rest =>
    let nProofOfWorkLimit := GetCompact params.powLimit
    if digishieldEscape tip pblock params then some nProofOfWorkLimit
    else if digishieldReset rest.length params then some nProofOfWorkLimit
    else
      let walk := digishieldWalk (tip :: rest) params.nDigishieldAveragingWindow.toNat
      match walk.2 with
      | [] => some nProofOfWorkLimit
      | f :: fs =>
        let d := intToUInt64 params.nDigishieldAveragingWindow
        if d = 0 then none
        else
          DigishieldCalculateNextWorkRequired (tip :: rest) (walk.1 / d)
            (GetMedianTimePast (f :: fs)) params

/-- One pass over the LWMA window, `i` running from `height - N` to
`height - 1`; accumulates the weighted solvetime sum `t` (a C++ `int`,
hence `wrap32`) and the pre-divided `sum_target` (wrapping 256-bit adds);
a failed ancestor lookup or the `uint_error` of a zero divisor is `none`. -/
def lwmaLoop (chain : List Header) (height : Int) (n : Nat) (T : Int)
    (limitST : Bool) (knn : Nat) : Option (Int × Nat) :=
  (List.range n).foldlM
    (fun acc idx =>
      match GetAncestor chain (height - (n : Int) + idx) with
      | none => none
      | some block =>
        match GetAncestor block (height - (n : Int) + idx - 1) with
        | none => none
        | some prevBlock =>
          match block, prevBlock with
          | bh :: _, ph :: _ =>
            let solvetime : Int := (bh.nTime : Int) - (ph.nTime : Int)
            let solvetime := if limitST && decide (solvetime > 6 * T) then 6 * T else solvetime
            let j : Int := (idx : Int) + 1
            if knn = 0 then none
            else
              some (wrap32 (acc.1 + solvetime * j),
                (acc.2 + (SetCompact bh.nBits).target / knn) % 2 ^ 256)
          | _, _ => none)
    ((0 : Int), (0 : Nat))

/-- `LwmaCalculateNextWorkRequired`: the `fPowNoRetargeting` early return,
the `assert(height > N)`, the weighted window loop, the floor on `t`, and
the final `t * sum_target` saturated to `powLimit`. -/
def LwmaCalculateNextWorkRequired (chain : List Header) (params : Params) : Option Nat :=
  match chain with
  | [] => none
  | tip :: rest =>
    if params.fPowNoRetargeting then some tip.nBits
    else
      let height : Int := ((tip :: rest).length : Int)
      let T := params.nPowTargetSpacing
      let N := params.nZawyLwmaAveragingWindow
      let k := params.nZawyLwmaAdjustedWeight
      let dnorm := params.nZawyLwmaMinDenominator
      if height ≤ N then none
      else
        let knn := intToUInt64 (wrap32 (k * N * N))
        match lwmaLoop (tip :: rest) height N.toNat T
            params.bZawyLwmaSolvetimeLimitation knn with
        | none => none
        | some (t, sumTarget) =>
          if dnorm = 0 then none
          else
            let floorT := Int.tdiv (wrap32 (N * k)) dnorm
            let t' := if t < floorT then floorT else t
            let next0 := intToUInt64 t' * sumTarget % 2 ^ 256
            let next1 := if next0 > params.powLimit then params.powLimit else next0
            some (GetCompact next1)

/-- Modelled from the spec: the same LWMA computation with the accumulator
`t` held in a signed 64-bit quantity as section 9 of the spec requires
("the accumulator `t` must be signed and wide enough (`i64`)"); for `u32`
timestamps and small windows an `i64` never wraps, so the accumulation is
exact `Int` arithmetic. -/
def lwmaLoopWideT (chain : List Header) (height : Int) (n : Nat) (T : Int)
    (limitST : Bool) (knn : Nat) : Option (Int × Nat) :=
  (List.range n).foldlM
    (fun acc idx =>
      match GetAncestor chain (height - (n : Int) + idx) with
      | none => none
      | some block =>
        match GetAncestor block (height - (n : Int) + idx - 1) with
        | none => none
        | some prevBlock =>
          match block, prevBlock with
          | bh :: _, ph :: _ =>
            let solvetime : Int := (bh.nTime : Int) - (ph.nTime : Int)
            let solvetime := if limitST && decide (solvetime > 6 * T) then 6 * T else solvetime
            let j : Int := (idx : Int) + 1
            if knn = 0 then none
            else
              some (acc.1 + solvetime * j,
                (acc.2 + (SetCompact bh.nBits).target / knn) % 2 ^ 256)
          | _, _ => none)
    ((0 : Int), (0 : Nat))

/-- Modelled from the spec: `LwmaCalculateNextWorkRequired` with the
spec-mandated i64 accumulator (section 9), otherwise identical to the
source function. -/
def lwmaCalculateNextWorkRequiredWideT (chain : List Header) (params : Params) : Option Nat :=
  match chain with
  | [] => none
  | tip :: rest =>
    if params.fPowNoRetargeting then some tip.nBits
    else
      let height : Int := ((tip :: rest).length : Int)
      let T := params.nPowTargetSpacing
      let N := params.nZawyLwmaAveragingWindow
      let k := params.nZawyLwmaAdjustedWeight
      let dnorm := params.nZawyLwmaMinDenominator
      if height ≤ N then none
      else
        let knn := intToUInt64 (wrap32 (k * N * N))
        match lwmaLoopWideT (tip :: rest) height N.toNat T
            params.bZawyLwmaSolvetimeLimitation knn with
        | none => none
        | some (t, sumTarget) =>
          if dnorm = 0 then none
          else
            let floorT := Int.tdiv (wrap32 (N * k)) dnorm
            let t' := if t < floorT then floorT else t
            let next0 := intToUInt64 t' * sumTarget % 2 ^ 256
            let next1 := if next0 > params.powLimit then params.powLimit else next0
            some (GetCompact next1)

/-- `LwmaGetNextWorkRequired`: when `fPowAllowMinDifficultyBlocks` is set
the candidate's timestamp is read before any null check (a null candidate
or parent crashes, `none`); more than `2 * nPowTargetSpacing` past the
parent returns the compact `powLimit`. -/
def LwmaGetNextWorkRequired (chain : List Header) (pblock : Option Header)
    (params : Params) : Option Nat :=
  if params.fPowAllowMinDifficultyBlocks then
    match pblock, chain with
    | some b, tip :: _ =>
      if (b.nTime : Int) > (tip.nTime : Int) + params.nPowTargetSpacing * 2 then
        some (GetCompact params.powLimit)
      else LwmaCalculateNextWorkRequired chain params
    | _, _ => none
  else LwmaCalculateNextWorkRequired chain params

/-- `GetNextWorkRequired`: `assert(pindexLast != nullptr)`, then a pure
height threshold selects Digishield v3 below `nZawyLWMAHeight` and Zawy's
LWMA from it on. -/
def GetNextWorkRequired (chain : List Header) (pblock : Option Header)
    (params : Params) : Option Nat :=
  match chain with
  | [] => none
  | tip :: rest =>
    if ((tip :: rest).length : Int) < params.nZawyLWMAHeight then
      DigishieldGetNextWorkRequired (tip :: rest) pblock params
    else LwmaGetNextWorkRequired (tip :: rest) pblock params

/-- `CheckProofOfWork(hash, nBits, params)`: decode `nBits`, reject
negative / zero / overflowing / above-`powLimit` targets, then compare the
hash against the target. -/
def CheckProofOfWork (hash : Nat) (nBits : Nat) (params : Params) : Bool :=
  let r := SetCompact nBits
  if r.negative || decide (r.target = 0) || r.overflow || decide (r.target > params.powLimit)
  then false
  else if decide (hash > r.target) then false
  else true

/-- The Equihash challenge input `I`: the header minus `nNonce` and
`nSolution` (`CEquihashInput`). -/
structure EquihashInput where
  nVersion : Int
  hashPrevBlock : Nat
  hashMerkleRoot : Nat
  hashReserved : Nat
  nTime : Nat
  nBits : Nat
deriving DecidableEq

/-- The consensus-relevant fields of `CBlockHeader` for the Equihash check. -/
structure BlockHeader where
  nVersion : Int
  hashPrevBlock : Nat
  hashMerkleRoot : Nat
  hashReserved : Nat
  nTime : Nat
  nBits : Nat
  nNonce : Nat
  nSolution : List Nat

/-- `CEquihashInput I{*pblock}`: strip the nonce and solution. -/
def equihashInput (b : BlockHeader) : EquihashInput :=
  { nVersion := b.nVersion
    hashPrevBlock := b.hashPrevBlock
    hashMerkleRoot := b.hashMerkleRoot
    hashReserved := b.hashReserved
    nTime := b.nTime
    nBits := b.nBits }

/-- `CheckEquihashSolution`: derive `(n, k)` from the solution size alone,
then hand the challenge `I`, the nonce `V` and the solution to the external
Equihash verifier (abstracted as the `verify` argument, standing for
`EhInitialiseState` + the serialised `I||V` absorption + `EhIsValidSolution`);
an unsupported size returns false without consulting the verifier. -/
def CheckEquihashSolution (verify : Nat → Nat → EquihashInput → Nat → List Nat → Bool)
    (b : BlockHeader) : Bool :=
  let nSolSize := b.nSolution.length
  if nSolSize = 1344 then verify 200 9 (equihashInput b) b.nNonce b.nSolution
  else if nSolSize = 36 then verify 48 5 (equihashInput b) b.nNonce b.nSolution
  else if nSolSize = 400 then verify 192 7 (equihashInput b) b.nNonce b.nSolution
  else if nSolSize = 100 then verify 144 5 (equihashInput b) b.nNonce b.nSolution
  else if nSolSize = 68 then verify 96 5 (equihashInput b) b.nNonce b.nSolution
  else false

/-! ## Lemmas about the compact codec -/

theorem bitsFuel_lt (fuel : Nat) : ∀ n : Nat, n < 2 ^ fuel → n < 2 ^ bitsFuel fuel n := by
  induction fuel with
  | zero =>
    intro n h
    have hn : n = 0 := by omega
    subst hn
    simp [bitsFuel]
  | succ f ih =>
    intro n h
    match n with
    | 0 => simp [bitsFuel]
    | m + 1 =>
      have h2 : (m + 1) / 2 < 2 ^ f := by
        rw [Nat.div_lt_iff_lt_mul (by norm_num)]
        calc m + 1 < 2 ^ (f + 1) := h
          _ = 2 ^ f * 2 := by rw [pow_succ]
      have h3 := ih _ h2
      show m + 1 < 2 ^ (bitsFuel f ((m + 1) / 2) + 1)
      rw [pow_succ]
      omega

theorem size_le_eight_mul (x : Nat) (hx : x < 2 ^ 256) :
    x < 2 ^ (8 * ((bits x + 7) / 8)) := by
  have h1 : bits x ≤ 8 * ((bits x + 7) / 8) := by omega
  exact lt_of_lt_of_le (bitsFuel_lt 256 x hx) (Nat.pow_le_pow_right (by norm_num) h1)

theorem setCompact_target_split (m e : Nat) (hm : m < 2 ^ 23) :
    (SetCompact (m + e * 2 ^ 24)).target =
      if e ≤ 3 then m / 2 ^ (8 * (3 - e)) else m * 2 ^ (8 * (e - 3)) % 2 ^ 256 := by
  have h1 : (m + e * 2 ^ 24) / 2 ^ 24 = e := by omega
  have h2 : (m + e * 2 ^ 24) % 2 ^ 23 = m := by
    have h3 : e * 2 ^ 24 = e * 2 * 2 ^ 23 := by ring
    rw [h3, Nat.add_mul_mod_self_right, Nat.mod_eq_of_lt hm]
  unfold SetCompact
  dsimp only
  rw [h1, h2]
  by_cases h : e ≤ 3 <;> simp [h]

theorem compactMantissa_lt (x : Nat) (hx : x < 2 ^ 256) : compactMantissa x < 2 ^ 24 := by
  have hxn := size_le_eight_mul x hx
  unfold compactMantissa
  split
  · next h =>
    calc x % 2 ^ 64 * 2 ^ (8 * (3 - (bits x + 7) / 8))
        ≤ x * 2 ^ (8 * (3 - (bits x + 7) / 8)) :=
          Nat.mul_le_mul_right _ (Nat.mod_le _ _)
      _ < 2 ^ (8 * ((bits x + 7) / 8)) * 2 ^ (8 * (3 - (bits x + 7) / 8)) :=
          (Nat.mul_lt_mul_right (Nat.pos_pow_of_pos _ (by norm_num)) ).mpr hxn
      _ = 2 ^ 24 := by rw [← pow_add]; congr 1; omega
  · next h =>
    have h4 : ¬ ((bits x + 7) / 8 ≤ 3) := h
    calc x / 2 ^ (8 * ((bits x + 7) / 8 - 3)) % 2 ^ 64
        ≤ x / 2 ^ (8 * ((bits x + 7) / 8 - 3)) := Nat.mod_le _ _
      _ < 2 ^ 24 := by
          rw [Nat.div_lt_iff_lt_mul (Nat.pos_pow_of_pos _ (by norm_num))]
          calc x < 2 ^ (8 * ((bits x + 7) / 8)) := hxn
            _ = 2 ^ 24 * 2 ^ (8 * ((bits x + 7) / 8 - 3)) := by
                rw [← pow_add]; congr 1; omega

theorem setCompact_getCompact_le (x : Nat) (hx : x < 2 ^ 256) :
    (SetCompact (GetCompact x)).target ≤ x := by
  have hxn := size_le_eight_mul x hx
  have hlt := compactMantissa_lt x hx
  have hdiv24 : ¬ ((bits x + 7) / 8 ≤ 3) →
      x / 2 ^ (8 * ((bits x + 7) / 8 - 3)) < 2 ^ 24 := by
    intro h
    rw [Nat.div_lt_iff_lt_mul (Nat.pos_pow_of_pos _ (by norm_num))]
    calc x < 2 ^ (8 * ((bits x + 7) / 8)) := hxn
      _ = 2 ^ 24 * 2 ^ (8 * ((bits x + 7) / 8 - 3)) := by rw [← pow_add]; congr 1; omega
  have hA : (bits x + 7) / 8 ≤ 3 →
      compactMantissa x = x * 2 ^ (8 * (3 - (bits x + 7) / 8)) := by
    intro h
    have hx64 : x < 2 ^ 64 := by
      calc x < 2 ^ (8 * ((bits x + 7) / 8)) := hxn
        _ ≤ 2 ^ 64 := Nat.pow_le_pow_right (by norm_num) (by omega)
    unfold compactMantissa
    rw [if_pos h, Nat.mod_eq_of_lt hx64]
  have hB : ¬ ((bits x + 7) / 8 ≤ 3) →
      compactMantissa x = x / 2 ^ (8 * ((bits x + 7) / 8 - 3)) := by
    intro h
    unfold compactMantissa
    rw [if_neg h, Nat.mod_eq_of_lt (lt_trans (hdiv24 h) (by norm_num))]
  unfold GetCompact
  by_cases hbit : compactMantissa x / 2 ^ 23 % 2 = 1
  · -- bump case: mantissa bit 23 set
    rw [if_pos hbit]
    have hm : compactMantissa x / 2 ^ 8 < 2 ^ 23 := by omega
    rw [setCompact_target_split _ _ hm]
    by_cases hn3 : (bits x + 7) / 8 + 1 ≤ 3
    · -- exponent still ≤ 3: decode is exact
      rw [if_pos hn3]
      have h8 : (bits x + 7) / 8 ≤ 3 := by omega
      have he : (2 : Nat) ^ 8 * 2 ^ (8 * (3 - ((bits x + 7) / 8 + 1)))
          = 2 ^ (8 * (3 - (bits x + 7) / 8)) := by
        rw [← pow_add]; congr 1; omega
      rw [hA h8, Nat.div_div_eq_div_mul, he,
        Nat.mul_div_cancel _ (Nat.pos_pow_of_pos _ (by norm_num))]
    · rw [if_neg hn3]
      have key : compactMantissa x / 2 ^ 8 * 2 ^ (8 * ((bits x + 7) / 8 + 1 - 3)) ≤ x := by
        by_cases h8 : (bits x + 7) / 8 ≤ 3
        · -- n = 3 exactly
          have hn3' : (bits x + 7) / 8 = 3 := by omega
          have hc : compactMantissa x = x := by
            rw [hA h8, hn3']
            simp
          rw [hc, hn3']
          calc x / 2 ^ 8 * 2 ^ (8 * (3 + 1 - 3)) = x / 2 ^ 8 * 2 ^ 8 := by norm_num
            _ ≤ x := Nat.div_mul_le_self _ _
        · rw [hB h8]
          have he : 8 * ((bits x + 7) / 8 + 1 - 3)
              = 8 + 8 * ((bits x + 7) / 8 - 3) := by omega
          rw [he, pow_add, ← Nat.mul_assoc]
          calc x / 2 ^ (8 * ((bits x + 7) / 8 - 3)) / 2 ^ 8 * 2 ^ 8
                * 2 ^ (8 * ((bits x + 7) / 8 - 3))
              ≤ x / 2 ^ (8 * ((bits x + 7) / 8 - 3)) * 2 ^ (8 * ((bits x + 7) / 8 - 3)) :=
                Nat.mul_le_mul_right _ (Nat.div_mul_le_self _ _)
            _ ≤ x := Nat.div_mul_le_self _ _
      rw [Nat.mod_eq_of_lt (lt_of_le_of_lt key hx)]
      exact key
  · -- no bump: mantissa bit 23 clear
    rw [if_neg hbit]
    have hm : compactMantissa x < 2 ^ 23 := by omega
    rw [setCompact_target_split _ _ hm]
    by_cases h8 : (bits x + 7) / 8 ≤ 3
    · rw [if_pos h8, hA h8, Nat.mul_div_cancel _ (Nat.pos_pow_of_pos _ (by norm_num))]
    · rw [if_neg h8, hB h8]
      have key : x / 2 ^ (8 * ((bits x + 7) / 8 - 3)) * 2 ^ (8 * ((bits x + 7) / 8 - 3))
          ≤ x := Nat.div_mul_le_self _ _
      rw [Nat.mod_eq_of_lt (lt_of_le_of_lt key hx)]
      exact key

/-! ## Shape of the values the retarget engine can return -/

/-- Saturation to `powLimit`: the clamped value never exceeds the limit. -/
theorem clamp_le_limit (a pl : Nat) : (if a > pl then pl else a) ≤ pl := by
  split <;> omega

/-- Every successful `DigishieldCalculateNextWorkRequired` either echoes the
parent's `nBits` (`fPowNoRetargeting`) or compact-encodes a value already
saturated to `powLimit`. -/
theorem digishieldCalculate_out (chain : List Header) (bnAvg : Nat) (ft : Int)
    (params : Params) (nbits : Nat)
    (h : DigishieldCalculateNextWorkRequired chain bnAvg ft params = some nbits) :
    (∃ tip rest, chain = tip :: rest ∧ nbits = tip.nBits) ∨
      ∃ v, v ≤ params.powLimit ∧ nbits = GetCompact v := by
  match chain with
  | [] => simp [DigishieldCalculateNextWorkRequired] at h
  | tip :: rest =>
    simp only [DigishieldCalculateNextWorkRequired] at h
    split at h
    · exact Or.inl ⟨tip, rest, rfl, (Option.some.inj h).symm⟩
    · split at h
      · simp at h
      · exact Or.inr ⟨_, clamp_le_limit _ _, (Option.some.inj h).symm⟩

/-- Every successful `DigishieldGetNextWorkRequired` echoes the parent's
`nBits` or compact-encodes a value at most `powLimit`. -/
theorem digishieldGet_out (chain : List Header) (pblock : Option Header)
    (params : Params) (nbits : Nat)
    (h : DigishieldGetNextWorkRequired chain pblock params = some nbits) :
    (∃ tip rest, chain = tip :: rest ∧ nbits = tip.nBits) ∨
      ∃ v, v ≤ params.powLimit ∧ nbits = GetCompact v := by
  match chain with
  | [] => simp [DigishieldGetNextWorkRequired] at h
  | tip :: rest =>
    simp only [DigishieldGetNextWorkRequired] at h
    split at h
    · exact Or.inr ⟨params.powLimit, le_rfl, (Option.some.inj h).symm⟩
    · split at h
      · exact Or.inr ⟨params.powLimit, le_rfl, (Option.some.inj h).symm⟩
      · split at h
        · exact Or.inr ⟨params.powLimit, le_rfl, (Option.some.inj h).symm⟩
        · split at h
          · simp at h
          · exact digishieldCalculate_out _ _ _ _ _ h

/-- Every successful `LwmaCalculateNextWorkRequired` echoes the parent's
`nBits` or compact-encodes a value at most `powLimit`. -/
theorem lwmaCalculate_out (chain : List Header) (params : Params) (nbits : Nat)
    (h : LwmaCalculateNextWorkRequired chain params = some nbits) :
    (∃ tip rest, chain = tip :: rest ∧ nbits = tip.nBits) ∨
      ∃ v, v ≤ params.powLimit ∧ nbits = GetCompact v := by
  match chain with
  | [] => simp [LwmaCalculateNextWorkRequired] at h
  | tip :: rest =>
    simp only [LwmaCalculateNextWorkRequired] at h
    split at h
    · exact Or.inl ⟨tip, rest, rfl, (Option.some.inj h).symm⟩
    · split at h
      · simp at h
      · split at h
        · simp at h
        · next t sumTarget heq =>
          split at h
          · simp at h
          · exact Or.inr ⟨_, clamp_le_limit _ _, (Option.some.inj h).symm⟩

/-- Every successful `LwmaGetNextWorkRequired` echoes the parent's `nBits`
or compact-encodes a value at most `powLimit`. -/
theorem lwmaGet_out (chain : List Header) (pblock : Option Header)
    (params : Params) (nbits : Nat)
    (h : LwmaGetNextWorkRequired chain pblock params = some nbits) :
    (∃ tip rest, chain = tip :: rest ∧ nbits = tip.nBits) ∨
      ∃ v, v ≤ params.powLimit ∧ nbits = GetCompact v := by
  simp only [LwmaGetNextWorkRequired] at h
  split at h
  · split at h
    · split at h
      · exact Or.inr ⟨params.powLimit, le_rfl, (Option.some.inj h).symm⟩
      · exact lwmaCalculate_out _ _ _ h
    · simp at h
  · exact lwmaCalculate_out _ _ _ h

/-- Every successful `GetNextWorkRequired` echoes the parent's `nBits` or
compact-encodes a value at most `powLimit`. -/
theorem getNextWork_out (chain : List Header) (pblock : Option Header)
    (params : Params) (nbits : Nat)
    (h : GetNextWorkRequired chain pblock params = some nbits) :
    (∃ tip rest, chain = tip :: rest ∧ nbits = tip.nBits) ∨
      ∃ v, v ≤ params.powLimit ∧ nbits = GetCompact v := by
  match chain with
  | [] => simp [GetNextWorkRequired] at h
  | tip :: rest =>
    simp only [GetNextWorkRequired] at h
    split at h
    · exact digishieldGet_out _ _ _ _ h
    · exact lwmaGet_out _ _ _ _ h

/-! ## Claim theorems -/

/-- C1: `CheckProofOfWork(powHash, nBits, params)` returns true if and only
if decoding `nBits` reports `negative = false` and `overflow = false` and
yields a nonzero target, that target is at most `powLimit`, and the 256-bit
value of `powHash` is at most that target; in every other case it returns
false. -/
theorem checkProofOfWork_true_iff (hash nBits : Nat) (params : Params) :
    CheckProofOfWork hash nBits params = true ↔
      ((SetCompact nBits).negative = false ∧ (SetCompact nBits).overflow = false ∧
        (SetCompact nBits).target ≠ 0 ∧ (SetCompact nBits).target ≤ params.powLimit ∧
        hash ≤ (SetCompact nBits).target) := by
  rcases hneg : (SetCompact nBits).negative <;> rcases hovf : (SetCompact nBits).overflow <;>
    simp [CheckProofOfWork, hneg, hovf] <;> omega

/-- The blocks of the averaging window consulted by the engine that the
height threshold of `GetNextWorkRequired` selects: the `W`
(`nDigishieldAveragingWindow`) or `N` (`nZawyLwmaAveragingWindow`) most
recent blocks ending at the parent. -/
def windowBlocks (chain : List Header) (params : Params) : List Header :=
  if (chain.length : Int) < params.nZawyLWMAHeight then
    chain.take params.nDigishieldAveragingWindow.toNat
  else chain.take params.nZawyLwmaAveragingWindow.toNat

/-- C2: Invariant I-T — whenever `GetNextWorkRequired` returns, and every
block of the averaging window that the selected engine consults carries a
compact decoding to a target at most `powLimit`, the compact it produces
decodes to a target at most `powLimit`.  The window parameters are at least
1, so the windows are nonempty and in particular contain the parent, whose
compact the `fPowNoRetargeting` branches echo. -/
theorem nextWork_target_le_powLimit (chain : List Header) (pblock : Option Header)
    (params : Params) (nbits : Nat)
    (hpl : params.powLimit < 2 ^ 256)
    (hW : 1 ≤ params.nDigishieldAveragingWindow)
    (hN : 1 ≤ params.nZawyLwmaAveragingWindow)
    (hwin : ∀ hdr ∈ windowBlocks chain params, (SetCompact hdr.nBits).target ≤ params.powLimit)
    (hres : GetNextWorkRequired chain pblock params = some nbits) :
    (SetCompact nbits).target ≤ params.powLimit := by
  rcases getNextWork_out chain pblock params nbits hres with ⟨tip, rest, hchain, hb⟩ | ⟨v, hv, hb⟩
  · subst hb
    subst hchain
    refine hwin tip ?_
    unfold windowBlocks
    split
    · obtain ⟨m, hm⟩ : ∃ m, params.nDigishieldAveragingWindow.toNat = m + 1 :=
        ⟨params.nDigishieldAveragingWindow.toNat - 1, by omega⟩
      rw [hm, List.take_succ_cons]
      exact List.mem_cons_self _ _
    · obtain ⟨m, hm⟩ : ∃ m, params.nZawyLwmaAveragingWindow.toNat = m + 1 :=
        ⟨params.nZawyLwmaAveragingWindow.toNat - 1, by omega⟩
      rw [hm, List.take_succ_cons]
      exact List.mem_cons_self _ _
  · subst hb
    exact le_trans (setCompact_getCompact_le v (lt_of_le_of_lt hv hpl)) hv

/-- Concrete parameters used by the invariant witness: regtest-style
no-retargeting with the LWMA engine active from height 0. -/
def witC2Params : Params :=
  { powLimit := 2 ^ 200
    fPowAllowMinDifficultyBlocks := false
    fPowNoRetargeting := true
    nZawyLWMAHeight := 0
    nEquihashForkHeight := 1000
    nDigishieldAveragingWindow := 17
    nDigishieldTargetSpacing := 150
    nDigishieldMaxAdjustUp := 16
    nDigishieldMaxAdjustDown := 32
    nPowTargetSpacing := 600
    nZawyLwmaAveragingWindow := 45
    nZawyLwmaAdjustedWeight := 13772
    nZawyLwmaMinDenominator := 10
    bZawyLwmaSolvetimeLimitation := true
    network := Network.main }

theorem nextWork_target_le_powLimit_witness :
    (SetCompact 51380224).target ≤ witC2Params.powLimit :=
  nextWork_target_le_powLimit [⟨51380224, 0⟩] none witC2Params 51380224
    (by decide) (by decide) (by decide) (by decide) (by decide)

/-- C8: `CheckEquihashSolution` selects the Equihash parameters solely from
the byte length of `nSolution` — 1344 gives (200,9), 400 gives (192,7),
100 gives (144,5), 68 gives (96,5), 36 gives (48,5) — and for any other
length it returns false without invoking the Equihash verifier (the result
is false for every possible verifier). -/
theorem checkEquihash_length_switch
    (verify : Nat → Nat → EquihashInput → Nat → List Nat → Bool) (b : BlockHeader) :
    (b.nSolution.length = 1344 →
      CheckEquihashSolution verify b = verify 200 9 (equihashInput b) b.nNonce b.nSolution) ∧
    (b.nSolution.length = 400 →
      CheckEquihashSolution verify b = verify 192 7 (equihashInput b) b.nNonce b.nSolution) ∧
    (b.nSolution.length = 100 →
      CheckEquihashSolution verify b = verify 144 5 (equihashInput b) b.nNonce b.nSolution) ∧
    (b.nSolution.length = 68 →
      CheckEquihashSolution verify b = verify 96 5 (equihashInput b) b.nNonce b.nSolution) ∧
    (b.nSolution.length = 36 →
      CheckEquihashSolution verify b = verify 48 5 (equihashInput b) b.nNonce b.nSolution) ∧
    (¬(b.nSolution.length = 1344 ∨ b.nSolution.length = 400 ∨ b.nSolution.length = 100 ∨
        b.nSolution.length = 68 ∨ b.nSolution.length = 36) →
      CheckEquihashSolution verify b = false) := by
  refine ⟨fun h => ?_, fun h => ?_, fun h => ?_, fun h => ?_, fun h => ?_, fun h => ?_⟩
  · simp [CheckEquihashSolution, h]
  · simp [CheckEquihashSolution, h]
  · simp [CheckEquihashSolution, h]
  · simp [CheckEquihashSolution, h]
  · simp [CheckEquihashSolution, h]
  · push_neg at h
    obtain ⟨h1, h2, h3, h4, h5⟩ := h
    simp [CheckEquihashSolution, h1, h2, h3, h4, h5]

/-- A stub verifier recognising only the (200, 9) parameter pair, used to
exercise the length switch at concrete inputs. -/
def eqVerifyStub : Nat → Nat → EquihashInput → Nat → List Nat → Bool :=
  fun n _ _ _ _ => decide (n = 200)

/-- A header carrying a 1344-byte solution. -/
def hdrSol1344 : BlockHeader := ⟨4, 0, 0, 0, 0, 0, 7, List.replicate 1344 0⟩

/-- A header carrying an unsupported 3-byte solution. -/
def hdrSolBad : BlockHeader := ⟨4, 0, 0, 0, 0, 0, 7, [1, 2, 3]⟩

theorem checkEquihash_length_switch_witness :
    CheckEquihashSolution eqVerifyStub hdrSol1344 = true ∧
    CheckEquihashSolution eqVerifyStub hdrSolBad = false := by
  constructor
  · rw [(checkEquihash_length_switch eqVerifyStub hdrSol1344).1
      (by rw [show hdrSol1344.nSolution = List.replicate 1344 0 from rfl, List.length_replicate])]
    rfl
  · exact (checkEquihash_length_switch eqVerifyStub hdrSolBad).2.2.2.2.2 (by simp [hdrSolBad])

/-- Parameters with a small `powLimit` (compact `0x0300ffff`), used by
several concrete evaluations. -/
def smallLimitParams : Params :=
  { powLimit := 65535
    fPowAllowMinDifficultyBlocks := false
    fPowNoRetargeting := false
    nZawyLWMAHeight := 100
    nEquihashForkHeight := 1000
    nDigishieldAveragingWindow := 17
    nDigishieldTargetSpacing := 150
    nDigishieldMaxAdjustUp := 16
    nDigishieldMaxAdjustDown := 32
    nPowTargetSpacing := 600
    nZawyLwmaAveragingWindow := 45
    nZawyLwmaAdjustedWeight := 13772
    nZawyLwmaMinDenominator := 10
    bZawyLwmaSolvetimeLimitation := true
    network := Network.main }

/-- C5 (amended): when the parent index is absent the call fails — the
`assert(pindexLast != nullptr)` aborts both `GetNextWorkRequired` and
`DigishieldGetNextWorkRequired`; the `encode(powLimit)` genesis return in
the Digishield engine is dead code behind the assert. -/
theorem genesis_call_aborts (pblock : Option Header) (params : Params) :
    GetNextWorkRequired [] pblock params = none ∧
    DigishieldGetNextWorkRequired [] pblock params = none :=
  ⟨rfl, rfl⟩

/-- C5 counterexample: with the parent absent, `GetNextWorkRequired` does
not return `encode(powLimit)` — it aborts. -/
theorem genesis_call_cex :
    GetNextWorkRequired [] none smallLimitParams ≠
      some (GetCompact smallLimitParams.powLimit) := by
  decide

/-- C9: in both retarget algorithms the min-difficulty escape is evaluated
before the `fPowNoRetargeting` rule — with both flags set and the candidate
beyond the threshold (`6 * nDigishieldTargetSpacing` for Digishield,
`2 * nPowTargetSpacing` for LWMA), the result is `encode(powLimit)`, not
the parent's `nBits`. -/
theorem minDifficulty_escape_precedes_noRetargeting (tip : Header) (rest : List Header)
    (b : Header) (params : Params)
    (hflag : params.fPowAllowMinDifficultyBlocks = true)
    (hnr : params.fPowNoRetargeting = true) :
    (((b.nTime : Int) > (tip.nTime : Int) + params.nDigishieldTargetSpacing * 6 →
      DigishieldGetNextWorkRequired (tip :: rest) (some b) params =
        some (GetCompact params.powLimit))) ∧
    (((b.nTime : Int) > (tip.nTime : Int) + params.nPowTargetSpacing * 2 →
      LwmaGetNextWorkRequired (tip :: rest) (some b) params =
        some (GetCompact params.powLimit))) := by
  constructor
  · intro hc
    simp [DigishieldGetNextWorkRequired, digishieldEscape, hflag, hc]
  · intro hc
    simp [LwmaGetNextWorkRequired, hflag, hc]

/-- Testnet-style parameters with both `fPowAllowMinDifficultyBlocks` and
`fPowNoRetargeting` set. -/
def escapeParams : Params :=
  { smallLimitParams with
    fPowAllowMinDifficultyBlocks := true
    fPowNoRetargeting := true }

theorem minDifficulty_escape_witness :
    DigishieldGetNextWorkRequired [⟨51380224, 0⟩] (some ⟨0, 10000⟩) escapeParams =
      some (GetCompact escapeParams.powLimit) ∧
    LwmaGetNextWorkRequired [⟨51380224, 0⟩] (some ⟨0, 10000⟩) escapeParams =
      some (GetCompact escapeParams.powLimit) :=
  ⟨(minDifficulty_escape_precedes_noRetargeting ⟨51380224, 0⟩ [] ⟨0, 10000⟩ escapeParams
      (by decide) (by decide)).1 (by decide),
    (minDifficulty_escape_precedes_noRetargeting ⟨51380224, 0⟩ [] ⟨0, 10000⟩ escapeParams
      (by decide) (by decide)).2 (by decide)⟩

/-- C10: with `fPowAllowMinDifficultyBlocks` set, the LWMA entry point
reads the candidate's timestamp before any null check, so an absent
candidate crashes the LWMA path; the Digishield entry point guards the same
read, so an absent candidate merely skips the escape — its result is the
same as with the flag cleared. -/
theorem lwma_requires_candidate (chain : List Header) (params : Params) :
    (params.fPowAllowMinDifficultyBlocks = true →
      LwmaGetNextWorkRequired chain none params = none) ∧
    DigishieldGetNextWorkRequired chain none params =
      DigishieldGetNextWorkRequired chain none
        { params with fPowAllowMinDifficultyBlocks := false } := by
  constructor
  · intro hflag
    cases chain <;> simp [LwmaGetNextWorkRequired, hflag]
  · cases chain with
    | nil => rfl
    | cons tip rest =>
      have he : ∀ q : Params, digishieldEscape tip none q = false := by
        intro q
        simp [digishieldEscape]
      simp only [DigishieldGetNextWorkRequired, he]
      rfl

theorem lwma_requires_candidate_witness :
    LwmaGetNextWorkRequired [⟨51380224, 7⟩] none escapeParams = none ∧
    DigishieldGetNextWorkRequired [⟨51380224, 7⟩] none escapeParams =
      DigishieldGetNextWorkRequired [⟨51380224, 7⟩] none
        { escapeParams with fPowAllowMinDifficultyBlocks := false } :=
  ⟨(lwma_requires_candidate [⟨51380224, 7⟩] escapeParams).1 (by decide),
    (lwma_requires_candidate [⟨51380224, 7⟩] escapeParams).2⟩

/-- Parameters exercising the LWMA accumulator width: a one-block window
with no solvetime limitation. -/
def lwmaBugParams : Params :=
  { powLimit := 2 ^ 200
    fPowAllowMinDifficultyBlocks := false
    fPowNoRetargeting := false
    nZawyLWMAHeight := 0
    nEquihashForkHeight := 1000
    nDigishieldAveragingWindow := 17
    nDigishieldTargetSpacing := 150
    nDigishieldMaxAdjustUp := 16
    nDigishieldMaxAdjustDown := 32
    nPowTargetSpacing := 600
    nZawyLwmaAveragingWindow := 1
    nZawyLwmaAdjustedWeight := 1
    nZawyLwmaMinDenominator := 1
    bZawyLwmaSolvetimeLimitation := false
    network := Network.main }

/-- A two-block chain whose single window solvetime is 3000000000 seconds
(both timestamps are representable `u32` values). -/
def lwmaBugChain : List Header := [⟨51380224, 3000000000⟩, ⟨51380224, 0⟩]

/-- C6: the source declares the weighted solvetime accumulator as a C++
`int` (`int t = 0`), not the `i64` the spec requires, and it wraps: on a
window whose solvetime is 3000000000, the 32-bit accumulator wraps to
-1294967296 and is floored to `N*k/dnorm = 1`, giving compact `0x03100000`,
while the spec-mandated i64 accumulator keeps 3000000000 and gives compact
`0x070b2d05`. -/
theorem lwma_accumulator_wraps :
    LwmaCalculateNextWorkRequired lwmaBugChain lwmaBugParams = some 51380224 ∧
    lwmaCalculateNextWorkRequiredWideT lwmaBugChain lwmaBugParams = some 118172933 ∧
    (51380224 : Nat) ≠ 118172933 := by
  refine ⟨by decide, by decide, by decide⟩

/-- The Digishield walk steps `pindexFirst` exactly `n` links down the
chain: its final position is `List.drop n`. -/
theorem digishieldWalk_snd (chain : List Header) (n : Nat) :
    (digishieldWalk chain n).2 = chain.drop n := by
  induction chain generalizing n with
  | nil => cases n <;> simp [digishieldWalk]
  | cons h t ih =>
    cases n with
    | zero => simp [digishieldWalk]
    | succ m => simp [digishieldWalk, ih]

/-- C4 (amended): when the walk gathers `W` targets without running off the
chain (the chain is longer than `W`), the `firstMTP` anchor is the
median-time-past of the `W`-th ancestor of the parent — the block
immediately *below* the oldest block of the `W`-block averaging window —
and the insufficient-history return of `encode(powLimit)` fires exactly
when the chain has at most `W` blocks. -/
theorem digishield_anchor_spec (chain : List Header) (params : Params) :
    (params.nDigishieldAveragingWindow.toNat < chain.length →
      digishieldAnchor chain params =
        some (GetMedianTimePast (chain.drop params.nDigishieldAveragingWindow.toNat))) ∧
    (chain.length ≤ params.nDigishieldAveragingWindow.toNat →
      digishieldAnchor chain params = none) ∧
    (∀ tip rest pblock, chain = tip :: rest →
      digishieldEscape tip pblock params = false →
      digishieldReset rest.length params = false →
      chain.length ≤ params.nDigishieldAveragingWindow.toNat →
      DigishieldGetNextWorkRequired chain pblock params =
        some (GetCompact params.powLimit)) := by
  refine ⟨?_, ?_, ?_⟩
  · intro hlen
    unfold digishieldAnchor
    rw [digishieldWalk_snd]
    rcases hdrop : chain.drop params.nDigishieldAveragingWindow.toNat with _ | ⟨f, fs⟩
    · rw [List.drop_eq_nil_iff] at hdrop
      omega
    · rfl
  · intro hlen
    unfold digishieldAnchor
    rw [digishieldWalk_snd]
    rcases hdrop : chain.drop params.nDigishieldAveragingWindow.toNat with _ | ⟨f, fs⟩
    · rfl
    · have := List.drop_eq_nil_iff.mpr hlen
      rw [this] at hdrop
      exact absurd hdrop (by simp)
  · rintro tip rest pblock rfl hesc hreset hlen
    simp only [DigishieldGetNextWorkRequired, hesc, hreset, Bool.false_eq_true, if_false]
    rw [digishieldWalk_snd, List.drop_eq_nil_iff.mpr hlen]

/-- A four-block chain with strictly increasing timestamps and a
two-block averaging window. -/
def anchorChain : List Header := [⟨1, 30⟩, ⟨1, 20⟩, ⟨1, 10⟩, ⟨1, 0⟩]

/-- Parameters with a two-block Digishield averaging window. -/
def anchorParams : Params := { smallLimitParams with nDigishieldAveragingWindow := 2 }

/-- C4 counterexample: the engine's `firstMTP` anchor is not the
median-time-past of the oldest block inside the two-block averaging window
(the block at height 2, i.e. `anchorChain.drop 1`): the anchor is 0, the
window's oldest block has median-time-past 10. -/
theorem digishield_anchor_cex :
    digishieldAnchor anchorChain anchorParams ≠
      some (GetMedianTimePast (anchorChain.drop 1)) := by
  decide

theorem digishield_anchor_spec_witness :
    digishieldAnchor anchorChain anchorParams =
      some (GetMedianTimePast (anchorChain.drop 2)) ∧
    DigishieldGetNextWorkRequired [⟨51380224, 0⟩] none anchorParams =
      some (GetCompact anchorParams.powLimit) :=
  ⟨(digishield_anchor_spec anchorChain anchorParams).1 (by decide),
    (digishield_anchor_spec [⟨51380224, 0⟩] anchorParams).2.2 ⟨51380224, 0⟩ [] none rfl
      (by decide) (by decide) (by decide)⟩

/-- C3 (amended): with `fPowNoRetargeting` set, `GetNextWorkRequired`
returns the parent's `nBits` unchanged provided the min-difficulty escape
condition of the engine the height selects — `fPowAllowMinDifficultyBlocks`
set *and* the candidate beyond that engine's threshold — does not hold,
and, on the Digishield path, the fork-reset branch does not fire, the chain
extends past the averaging window, and the window divisor is nonzero; on
the LWMA path the no-retargeting check comes first, so no further condition
is needed. -/
theorem noRetargeting_returns_parent_bits (tip : Header) (rest : List Header)
    (b : Header) (params : Params)
    (hnr : params.fPowNoRetargeting = true)
    (hescD : ((tip :: rest).length : Int) < params.nZawyLWMAHeight →
      digishieldEscape tip (some b) params = false)
    (hescL : params.nZawyLWMAHeight ≤ ((tip :: rest).length : Int) →
      ¬(params.fPowAllowMinDifficultyBlocks = true ∧
        (b.nTime : Int) > (tip.nTime : Int) + params.nPowTargetSpacing * 2))
    (hdig : ((tip :: rest).length : Int) < params.nZawyLWMAHeight →
      digishieldReset rest.length params = false ∧
      params.nDigishieldAveragingWindow.toNat < (tip :: rest).length ∧
      intToUInt64 params.nDigishieldAveragingWindow ≠ 0) :
    GetNextWorkRequired (tip :: rest) (some b) params = some tip.nBits := by
  simp only [GetNextWorkRequired]
  split
  · next hlt =>
    obtain ⟨hreset, hlen, hdiv⟩ := hdig hlt
    have hesc := hescD hlt
    simp only [DigishieldGetNextWorkRequired, hesc, hreset, Bool.false_eq_true, if_false]
    rw [digishieldWalk_snd]
    rcases hdrop : (tip :: rest).drop params.nDigishieldAveragingWindow.toNat
      with _ | ⟨f, fs⟩
    · rw [List.drop_eq_nil_iff] at hdrop
      omega
    · dsimp only
      rw [if_neg hdiv]
      simp [DigishieldCalculateNextWorkRequired, hnr]
  · next hge =>
    have hle : params.nZawyLWMAHeight ≤ ((tip :: rest).length : Int) := le_of_not_lt hge
    simp only [LwmaGetNextWorkRequired]
    cases hflag : params.fPowAllowMinDifficultyBlocks
    · simp [LwmaCalculateNextWorkRequired, hnr]
    · have hcond : ¬((b.nTime : Int) > (tip.nTime : Int) + params.nPowTargetSpacing * 2) :=
        fun hd => hescL hle ⟨hflag, hd⟩
      simp only [if_true]
      rw [if_neg hcond]
      simp [LwmaCalculateNextWorkRequired, hnr]

/-- Parameters with both flags set and the Digishield engine active, so
the min-difficulty escape overrides `fPowNoRetargeting`. -/
def noRetargetEscapeParams : Params :=
  { smallLimitParams with
    fPowAllowMinDifficultyBlocks := true
    fPowNoRetargeting := true
    nZawyLWMAHeight := 100 }

/-- C3 counterexample: with `fPowNoRetargeting` set, a candidate far past
the parent still triggers the min-difficulty escape, so the call returns
`encode(powLimit)` rather than the parent's `nBits` `0x03100000`. -/
theorem noRetargeting_cex :
    GetNextWorkRequired [⟨51380224, 0⟩] (some ⟨0, 10000⟩) noRetargetEscapeParams ≠
      some 51380224 := by
  decide

/-- Regtest-style parameters: no retargeting, LWMA active from height 0. -/
def noRetargetLwmaParams : Params :=
  { smallLimitParams with
    fPowNoRetargeting := true
    nZawyLWMAHeight := 0 }

theorem noRetargeting_returns_parent_bits_witness :
    GetNextWorkRequired [⟨51380224, 0⟩] (some ⟨0, 100⟩) noRetargetLwmaParams =
      some 51380224 :=
  noRetargeting_returns_parent_bits ⟨51380224, 0⟩ [] ⟨0, 100⟩ noRetargetLwmaParams
    (by decide) (by decide) (by decide) (by decide)

/-- C7 (amended): with `N = nZawyLwmaAveragingWindow ≥ 1` and
`h = parent.height + 1 > N`, every ancestor lookup of the LWMA loop —
`GetAncestor(i)` on the parent and `GetAncestor(i-1)` on the found block,
for `i` from `h - N` to `h - 1` — is for a valid height and succeeds; with
`h ≤ N` the call aborts on its assertion *provided* `fPowNoRetargeting` is
false (the no-retargeting early return precedes the assertion). -/
theorem lwma_lookup_safety (chain : List Header) (params : Params)
    (hN : 1 ≤ params.nZawyLwmaAveragingWindow) :
    ((params.nZawyLwmaAveragingWindow < (chain.length : Int) →
      ∀ i : Int, (chain.length : Int) - params.nZawyLwmaAveragingWindow ≤ i →
        i < (chain.length : Int) →
        ∃ blk, GetAncestor chain i = some blk ∧ (GetAncestor blk (i - 1)).isSome = true)) ∧
    ((chain.length : Int) ≤ params.nZawyLwmaAveragingWindow →
      params.fPowNoRetargeting = false →
      LwmaCalculateNextWorkRequired chain params = none) := by
  constructor
  · intro hlen i hi1 hi2
    have hi0 : 1 ≤ i := by omega
    refine ⟨chain.drop (chain.length - 1 - i.toNat), ?_, ?_⟩
    · unfold GetAncestor
      rw [if_neg (by omega)]
    · unfold GetAncestor
      rw [if_neg]
      · simp
      · rw [List.length_drop]
        omega
  · intro hlen hnr
    cases chain with
    | nil => rfl
    | cons tip rest =>
      simp only [LwmaCalculateNextWorkRequired, hnr, Bool.false_eq_true, if_false]
      rw [if_pos hlen]

/-- Parameters with no retargeting and a five-block LWMA window. -/
def shortLwmaParams : Params :=
  { smallLimitParams with
    fPowNoRetargeting := true
    nZawyLwmaAveragingWindow := 5 }

/-- C7 counterexample: with `h = 1 ≤ N = 5` but `fPowNoRetargeting` set,
the LWMA engine does not abort — the no-retargeting early return fires
before the assertion and yields the parent's `nBits`. -/
theorem lwma_no_abort_cex :
    LwmaCalculateNextWorkRequired [⟨51380224, 0⟩] shortLwmaParams ≠ none := by
  decide

/-- Parameters with a single-block LWMA window and retargeting enabled. -/
def tinyLwmaParams : Params :=
  { smallLimitParams with nZawyLwmaAveragingWindow := 1 }

theorem lwma_lookup_safety_witness :
    (∃ blk, GetAncestor [⟨1, 30⟩, ⟨1, 20⟩, ⟨1, 10⟩] 2 = some blk ∧
      (GetAncestor blk 1).isSome = true) ∧
    LwmaCalculateNextWorkRequired [⟨1, 0⟩] tinyLwmaParams = none :=
  ⟨(lwma_lookup_safety [⟨1, 30⟩, ⟨1, 20⟩, ⟨1, 10⟩] tinyLwmaParams (by decide)).1
      (by decide) 2 (by decide) (by decide),
    (lwma_lookup_safety [⟨1, 0⟩] tinyLwmaParams (by decide)).2 (by decide) (by decide)⟩
